import Mathlib

/-!
Verification development for the NeoShell command parsing and pipeline
execution engine (`src/parser.py`).

The Python functions `parse_command`, `parse_pipeline`, `execute_external`
and `execute_pipeline` are embedded as executable Lean functions.  The
tokenizer embeds the behaviour of `shlex.split` in POSIX mode with
`whitespace_split = True`, which is what `shlex.split(command_str)` uses;
whitespace is the four ASCII characters shlex recognises.  Process launching
and the file system are modelled by an explicit environment, since the
engine's behaviour depends on the OS only through "does this input file
exist" and "what happens when this program is launched".
-/

namespace Neoshell

/-- The single-quote character, written via its code point. -/
def squote : Char := Char.ofNat 39

/-- The whitespace characters of `shlex.whitespace` (also what
`str.strip()` removes on the ASCII inputs considered here). -/
def pyIsSpace (c : Char) : Bool :=
  c = ' ' || c = '\t' || c = '\r' || c = '\n'

/-- Lexer state of `shlex.read_token`: between words, inside a word,
inside a quoted section, or just after an escape character (remembering
the state to return to). -/
inductive LexState where
  | ws : LexState
  | word : LexState
  | quote (q : Char) : LexState
  | esc (back : LexState) : LexState
deriving Repr, DecidableEq

/-- One-pass embedding of the `shlex` token loop (POSIX rules,
`whitespace_split`, escape character `\`, quote characters `'` and `"`,
and `\` only escaping inside `"` quotes).  `tok` is the token being
accumulated, `quoted` records whether the current token saw a quote
(so that `''` yields an empty token), `acc` the tokens already emitted. -/
def shlexAux : List Char → LexState → List Char → Bool → List (List Char) →
    Except String (List (List Char))
  | [], .ws, tok, quoted, acc =>
    .ok (acc ++ if tok.isEmpty && !quoted then [] else [tok])
  | [], .word, tok, quoted, acc =>
    .ok (acc ++ if tok.isEmpty && !quoted then [] else [tok])
  | [], .quote _, _, _, _ => .error "No closing quotation"
  | [], .esc _, _, _, _ => .error "No escaped character"
  | c :: cs, .ws, tok, quoted, acc =>
    if pyIsSpace c then
      if tok.isEmpty && !quoted then shlexAux cs .ws tok quoted acc
      else shlexAux cs .ws [] false (acc ++ [tok])
    else if c = '\\' then shlexAux cs (.esc .word) tok quoted acc
    else if c = squote || c = '"' then shlexAux cs (.quote c) tok quoted acc
    else shlexAux cs .word (tok ++ [c]) quoted acc
  | c :: cs, .word, tok, quoted, acc =>
    if pyIsSpace c then
      if tok.isEmpty && !quoted then shlexAux cs .ws tok quoted acc
      else shlexAux cs .ws [] false (acc ++ [tok])
    else if c = squote || c = '"' then shlexAux cs (.quote c) tok quoted acc
    else if c = '\\' then shlexAux cs (.esc .word) tok quoted acc
    else shlexAux cs .word (tok ++ [c]) quoted acc
  | c :: cs, .quote q, tok, _, acc =>
    if c = q then shlexAux cs .word tok true acc
    else if q = '"' && c = '\\' then shlexAux cs (.esc (.quote q)) tok true acc
    else shlexAux cs (.quote q) (tok ++ [c]) true acc
  | c :: cs, .esc back, tok, quoted, acc =>
    match back with
    | .quote q =>
      if c ≠ '\\' && c ≠ q then shlexAux cs (.quote q) (tok ++ ['\\', c]) quoted acc
      else shlexAux cs (.quote q) (tok ++ [c]) quoted acc
    | b => shlexAux cs b (tok ++ [c]) quoted acc

/-- `shlex.split(s)` as called by `parse_command` (parser.py line 15). -/
def shlexSplit (s : String) : Except String (List String) :=
  match shlexAux s.toList .ws [] false [] with
  | .error e => .error e
  | .ok ts => .ok (ts.map fun t => String.mk t)

/-- The dictionary built by `parse_command` (parser.py lines 22–28). -/
structure ParsedCmd where
  command : String
  args : List String
  input_file : Option String
  output_file : Option String
  append : Bool
deriving Repr, DecidableEq

/-- The redirection scan of `parse_command` (parser.py lines 30–53):
`>`/`>>`/`<` consume the following token as a redirection target
(`>>` also sets `append`, and nothing ever resets it), a trailing
operator is a missing-filename error, everything else is an argument. -/
def scanTokens : List String → ParsedCmd → Except String ParsedCmd
  | [], r => .ok r
  | t :: rest, r =>
    if t = ">" then
      match rest with
      | f :: rest2 => scanTokens rest2 { r with output_file := some f }
      | [] => .error "Missing filename after >"
    else if t = ">>" then
      match rest with
      | f :: rest2 =>
        scanTokens rest2 { r with output_file := some f, append := true }
      | [] => .error "Missing filename after >>"
    else if t = "<" then
      match rest with
      | f :: rest2 => scanTokens rest2 { r with input_file := some f }
      | [] => .error "Missing filename after <"
    else scanTokens rest { r with args := r.args ++ [t] }

/-- `parse_command` applied to an already-tokenized line
(parser.py lines 19–55). -/
def parseCommandTokens : List String → Except String ParsedCmd
  | [] => .error "Empty command"
  | t :: ts =>
    scanTokens ts
      { command := t, args := [], input_file := none, output_file := none,
        append := false }

/-- `parse_command` (parser.py lines 12–55): tokenize, then scan. -/
def parse_command (s : String) : Except String ParsedCmd :=
  match shlexSplit s with
  | .error e => .error ("Syntax error: " ++ e)
  | .ok toks => parseCommandTokens toks

/-- Python `str.split(sep)` for a single-character separator: splits at
every occurrence, keeping empty segments. -/
def splitOnChar (sep : Char) : List Char → List (List Char)
  | [] => [[]]
  | c :: cs =>
    let r := splitOnChar sep cs
    if c = sep then [] :: r
    else
      match r with
      | t :: ts => (c :: t) :: ts
      | [] => [[c]]

/-- Python `str.strip()` on the ASCII whitespace characters. -/
def pyStrip (s : String) : String :=
  String.mk (((s.toList.dropWhile pyIsSpace).reverse.dropWhile pyIsSpace).reverse)

/-- The per-segment loop of `parse_pipeline` (parser.py lines 64–74):
strip each segment, reject empty segments, parse the rest, stop at the
first error. -/
def parsePipelineSegs : List String → Except String (List ParsedCmd)
  | [] => .ok []
  | seg :: rest =>
    let c := pyStrip seg
    if c = "" then .error "Empty command in pipeline"
    else
      match parse_command c with
      | .error e => .error e
      | .ok p =>
        match parsePipelineSegs rest with
        | .error e => .error e
        | .ok ps => .ok (p :: ps)

/-- `parse_pipeline` (parser.py lines 58–76): raw split on `|`, then the
per-segment loop. -/
def parse_pipeline (s : String) : Except String (List ParsedCmd) :=
  parsePipelineSegs ((splitOnChar '|' s.toList).map fun t => String.mk t)

/-! ## Execution model

`subprocess.run` / `subprocess.Popen` and the file system are modelled by
an environment: which paths can be opened for reading, and what launching
a given program does (start and later exit with a code and some stderr
text, or raise `FileNotFoundError` / `PermissionError` / another
`OSError`).  Output files are assumed writable, as no claim concerns a
failing output open. -/

/-- Outcome of asking the OS to launch a program. -/
inductive LaunchOutcome where
  | started (exitCode : Int) (stderrText : String) : LaunchOutcome
  | notFound : LaunchOutcome
  | permissionDenied : LaunchOutcome
  | otherErr (msg : String) : LaunchOutcome
deriving Repr, DecidableEq

/-- `LaunchOutcome.isStarted o` holds when the launch produced a process. -/
def LaunchOutcome.isStarted : LaunchOutcome → Bool
  | .started _ _ => true
  | _ => false

/-- The OS as seen by the executor. -/
structure Env where
  fileExists : String → Bool
  launch : String → LaunchOutcome

/-- Python truthiness of the optional-path dictionary entries
(`None` and the empty string are falsy). -/
def truthy : Option String → Bool
  | none => false
  | some s => s != ""

/-- Result of `execute_external`: the value returned (Python `None` when
the function falls off the `return` at parser.py line 92) and the
`print_error` messages emitted. -/
structure ExtResult where
  exit : Option Int
  errMsgs : List String
deriving Repr, DecidableEq

/-- `execute_external` (parser.py lines 79–124). -/
def execute_external (env : Env) (p : ParsedCmd) : ExtResult :=
  if truthy p.input_file && !env.fileExists (p.input_file.getD "") then
    { exit := none,
      errMsgs := ["Input file not found: " ++ p.input_file.getD ""] }
  else
    match env.launch p.command with
    | .started code _ => { exit := some code, errMsgs := [] }
    | .notFound =>
      { exit := some 127, errMsgs := ["Command not found: " ++ p.command] }
    | .permissionDenied =>
      { exit := some 126, errMsgs := ["Permission denied: " ++ p.command] }
    | .otherErr m => { exit := some 1, errMsgs := ["Error: " ++ m] }

/-- A handle held by the parent process: a redirection file it opened, or
its end of a pipe created for a stage's stdout or stderr. -/
inductive Handle where
  | inFile (path : String) : Handle
  | outFile (path : String) : Handle
  | pipeOut (stage : Nat) : Handle
  | pipeErr (stage : Nat) : Handle
deriving Repr, DecidableEq

/-- Parent-side bookkeeping while the launch loop of `execute_pipeline`
runs: which stages were started, which handles the parent acquired and
released, and the current `prev_stdout`. -/
structure LoopState where
  started : List Nat
  opened : List Handle
  closed : List Handle
  prevStdout : Option Handle
deriving Repr, DecidableEq

/-- The exceptions the launch loop can raise, as discriminated by the
handlers at parser.py lines 174–179: `FileNotFoundError` (from the
stage-0 input `open` or from `Popen`), and everything else (including
`PermissionError`, for which `execute_pipeline` has no handler). -/
inductive PipeExc where
  | fileNotFound : PipeExc
  | otherExc (msg : String) : PipeExc
deriving Repr, DecidableEq

/-- The `for i, cmd_dict in enumerate(pipeline)` launch loop of
`execute_pipeline` (parser.py lines 133–163).  An exception carries the
loop state at the moment it is raised, since the `except` handlers run
with exactly that state and none of the cleanup. -/
def launchLoop (env : Env) : List ParsedCmd → Nat → LoopState →
    Except (PipeExc × LoopState) LoopState
  | [], _, st => .ok st
  | cmd :: rest, i, st =>
    let stdinStep : Except (PipeExc × LoopState) LoopState :=
      if i = 0 && truthy cmd.input_file then
        let path := cmd.input_file.getD ""
        if env.fileExists path then
          .ok { st with opened := st.opened ++ [Handle.inFile path] }
        else .error (.fileNotFound, st)
      else .ok st
    match stdinStep with
    | .error e => .error e
    | .ok st1 =>
      let isLast := rest.isEmpty
      let stdoutIsPipe := !isLast
      let st2 :=
        if isLast && truthy cmd.output_file then
          { st1 with
            opened := st1.opened ++ [Handle.outFile (cmd.output_file.getD "")] }
        else st1
      match env.launch cmd.command with
      | .notFound => .error (.fileNotFound, st2)
      | .permissionDenied =>
        .error (.otherExc ("Permission denied: " ++ cmd.command), st2)
      | .otherErr m => .error (.otherExc m, st2)
      | .started _ _ =>
        let st3 :=
          { st2 with
            started := st2.started ++ [i],
            opened := st2.opened ++
              (if stdoutIsPipe then [Handle.pipeOut i] else []) ++
              [Handle.pipeErr i] }
        let st4 :=
          match st3.prevStdout with
          | some h => { st3 with closed := st3.closed ++ [h] }
          | none => st3
        let st5 :=
          { st4 with
            prevStdout := if stdoutIsPipe then some (Handle.pipeOut i) else none }
        launchLoop env rest (i + 1) st5

/-- Result of `execute_pipeline`: the returned exit code, the
`print_error` messages, and the parent-side process/handle bookkeeping. -/
structure PipeResult where
  exit : Int
  errMsgs : List String
  started : List Nat
  waited : List Nat
  opened : List Handle
  closed : List Handle
deriving Repr, DecidableEq

/-- `execute_pipeline` (parser.py lines 127–179).  On normal completion
the wait loop (lines 165–170) waits on every started process in order and
the function returns 0; when the launch loop raises, control jumps to the
handlers (lines 174–179), skipping the wait loop and all cleanup. -/
def execute_pipeline (env : Env) (pl : List ParsedCmd) : PipeResult :=
  match launchLoop env pl 0 ⟨[], [], [], none⟩ with
  | .ok st =>
    { exit := 0, errMsgs := [], started := st.started, waited := st.started,
      opened := st.opened, closed := st.closed }
  | .error (.fileNotFound, st) =>
    { exit := 127, errMsgs := ["Command not found in pipeline"],
      started := st.started, waited := [], opened := st.opened,
      closed := st.closed }
  | .error (.otherExc m, st) =>
    { exit := 1, errMsgs := ["Pipeline error: " ++ m],
      started := st.started, waited := [], opened := st.opened,
      closed := st.closed }

/-! ## Auxiliary definitions used by the theorem statements -/

/-- The recognized redirection operators (spec §6). -/
def redirOps : List String := [">", ">>", "<"]

/-- Modelled from the spec: the field assignment performed when
redirection operator `op` with target `f` is consumed, per §4.2 as
amended by claim C6's correction — `>` stores the output path and leaves
`appendOutput` unchanged, `>>` stores it and sets `appendOutput`, `<`
stores the input path. -/
def specRedirApply (op f : String) (d : ParsedCmd) : ParsedCmd :=
  if op = ">" then { d with output_file := some f }
  else if op = ">>" then { d with output_file := some f, append := true }
  else { d with input_file := some f }

/-- Modelled from the spec §4.2: the left-to-right scan over the tokens
after the program name, phrased operator-first — an operator with a
following token consumes both, an operator as final token is a
missing-filename error, every other token is appended to the
arguments. -/
def specScan : List String → ParsedCmd → Except String ParsedCmd
  | [], d => .ok d
  | [t], d =>
    if t ∈ redirOps then .error ("Missing filename after " ++ t)
    else .ok { d with args := d.args ++ [t] }
  | t :: f :: rest, d =>
    if t ∈ redirOps then specScan rest (specRedirApply t f d)
    else specScan (f :: rest) { d with args := d.args ++ [t] }

/-- Modelled from the spec §4.2: `parseCommand` — the first token is the
program, the rest is scanned for redirections and arguments. -/
def specParseCommand : List String → Except String ParsedCmd
  | [] => .error "Empty command"
  | t :: ts =>
    specScan ts
      { command := t, args := [], input_file := none, output_file := none,
        append := false }

/-- How the loop body of `parse_pipeline` disposes of one raw segment:
an empty-after-strip segment is an empty-stage error, any other segment
is parsed as a command. -/
def segOutcome (seg : String) : Except String ParsedCmd :=
  if pyStrip seg = "" then .error "Empty command in pipeline"
  else parse_command (pyStrip seg)

/-- First-error sequencing: the whole list of results, or the leftmost
error verbatim. -/
def seqExcept : List (Except String ParsedCmd) → Except String (List ParsedCmd)
  | [] => .ok []
  | .error e :: _ => .error e
  | .ok p :: rest =>
    match seqExcept rest with
    | .error e => .error e
    | .ok ps => .ok (p :: ps)

/-- The parent-side `closed` list of a launch-loop result, whether the
loop completed or raised. -/
def closedOf : Except (PipeExc × LoopState) LoopState → List Handle
  | .ok st => st.closed
  | .error (_, st) => st.closed

/-- Whether `needle` occurs contiguously inside `hay` (used to state that
an error message does, or does not, mention a path). -/
def containsRun (needle : List Char) : List Char → Bool
  | [] => needle.isEmpty
  | c :: cs => needle.isPrefixOf (c :: cs) || containsRun needle cs

/-- The tail of the launch-loop body once stdin is resolved
(definitionally equal to the corresponding part of `launchLoop`; a proof
helper, not a separate model). -/
def stageAfterStdin (env : Env) (cmd : ParsedCmd) (rest : List ParsedCmd)
    (i : Nat) (st1 : LoopState) : Except (PipeExc × LoopState) LoopState :=
  let isLast := rest.isEmpty
  let stdoutIsPipe := !isLast
  let st2 :=
    if isLast && truthy cmd.output_file then
      { st1 with
        opened := st1.opened ++ [Handle.outFile (cmd.output_file.getD "")] }
    else st1
  match env.launch cmd.command with
  | .notFound => .error (.fileNotFound, st2)
  | .permissionDenied =>
    .error (.otherExc ("Permission denied: " ++ cmd.command), st2)
  | .otherErr m => .error (.otherExc m, st2)
  | .started _ _ =>
    let st3 :=
      { st2 with
        started := st2.started ++ [i],
        opened := st2.opened ++
          (if stdoutIsPipe then [Handle.pipeOut i] else []) ++
          [Handle.pipeErr i] }
    let st4 :=
      match st3.prevStdout with
      | some h => { st3 with closed := st3.closed ++ [h] }
      | none => st3
    let st5 :=
      { st4 with
        prevStdout := if stdoutIsPipe then some (Handle.pipeOut i) else none }
    launchLoop env rest (i + 1) st5

/-! ## Lemmas about the redirection scan -/

theorem scanTokens_nil (r : ParsedCmd) : scanTokens [] r = .ok r := rfl

theorem scanTokens_gt (f : String) (rest : List String) (r : ParsedCmd) :
    scanTokens (">" :: f :: rest) r =
      scanTokens rest { r with output_file := some f } := rfl

theorem scanTokens_gtgt (f : String) (rest : List String) (r : ParsedCmd) :
    scanTokens (">>" :: f :: rest) r =
      scanTokens rest { r with output_file := some f, append := true } := rfl

theorem scanTokens_lt (f : String) (rest : List String) (r : ParsedCmd) :
    scanTokens ("<" :: f :: rest) r =
      scanTokens rest { r with input_file := some f } := rfl

theorem scanTokens_arg (t : String) (rest : List String) (r : ParsedCmd)
    (h1 : ¬ t = ">") (h2 : ¬ t = ">>") (h3 : ¬ t = "<") :
    scanTokens (t :: rest) r = scanTokens rest { r with args := r.args ++ [t] } := by
  rw [scanTokens.eq_def]
  simp only [if_neg h1, if_neg h2, if_neg h3]

/-- Scanning a concatenation continues from the result of scanning the
first part, provided that part scans cleanly (bounded-length form). -/
theorem scanTokens_append_aux :
    ∀ (n : Nat) (xs : List String), xs.length ≤ n →
      ∀ (r p : ParsedCmd) (ys : List String),
        scanTokens xs r = .ok p →
        scanTokens (xs ++ ys) r = scanTokens ys p := by
  intro n
  induction n with
  | zero =>
    intro xs hlen r p ys h
    have hx : xs = [] := List.length_eq_zero.mp (Nat.le_zero.mp hlen)
    subst hx
    simp only [scanTokens_nil, Except.ok.injEq] at h
    simp [h]
  | succ n ih =>
    intro xs hlen r p ys h
    match xs with
    | [] =>
      simp only [scanTokens_nil, Except.ok.injEq] at h
      simp [h]
    | t :: rest =>
      simp only [List.length_cons, Nat.add_le_add_iff_right] at hlen
      by_cases h1 : t = ">"
      · subst h1
        match rest with
        | [] => simp [scanTokens] at h
        | f :: rest2 =>
          rw [scanTokens_gt] at h
          rw [List.cons_append, List.cons_append, scanTokens_gt]
          exact ih rest2 (by simp only [List.length_cons] at hlen; omega) _ p ys h
      · by_cases h2 : t = ">>"
        · subst h2
          match rest with
          | [] => simp [scanTokens] at h
          | f :: rest2 =>
            rw [scanTokens_gtgt] at h
            rw [List.cons_append, List.cons_append, scanTokens_gtgt]
            exact ih rest2 (by simp only [List.length_cons] at hlen; omega) _ p ys h
        · by_cases h3 : t = "<"
          · subst h3
            match rest with
            | [] => simp [scanTokens] at h
            | f :: rest2 =>
              rw [scanTokens_lt] at h
              rw [List.cons_append, List.cons_append, scanTokens_lt]
              exact ih rest2 (by simp only [List.length_cons] at hlen; omega) _ p ys h
          · rw [scanTokens_arg t rest r h1 h2 h3] at h
            rw [List.cons_append, scanTokens_arg t (rest ++ ys) r h1 h2 h3]
            exact ih rest (by omega) _ p ys h

/-- Scanning a concatenation continues from the result of scanning the
first part, provided that part scans cleanly. -/
theorem scanTokens_append (xs : List String) (r p : ParsedCmd) (ys : List String)
    (h : scanTokens xs r = .ok p) :
    scanTokens (xs ++ ys) r = scanTokens ys p :=
  scanTokens_append_aux xs.length xs le_rfl r p ys h

instance {α β : Type} [DecidableEq α] [DecidableEq β] :
    DecidableEq (Except α β) := fun a b =>
  match a, b with
  | .ok x, .ok y => decidable_of_iff (x = y) (by simp)
  | .error e, .error f => decidable_of_iff (e = f) (by simp)
  | .ok _, .error _ => isFalse (by simp)
  | .error _, .ok _ => isFalse (by simp)

theorem specScan_nil (d : ParsedCmd) : specScan [] d = .ok d := rfl

theorem specScan_single (t : String) (d : ParsedCmd) :
    specScan [t] d =
      if t ∈ redirOps then .error ("Missing filename after " ++ t)
      else .ok { d with args := d.args ++ [t] } := rfl

theorem specScan_cons (t f : String) (rest : List String) (d : ParsedCmd) :
    specScan (t :: f :: rest) d =
      if t ∈ redirOps then specScan rest (specRedirApply t f d)
      else specScan (f :: rest) { d with args := d.args ++ [t] } := rfl

/-- The redirection scan agrees with the spec-style operator-first scan
(bounded-length form). -/
theorem scanTokens_eq_specScan_aux :
    ∀ (n : Nat) (xs : List String), xs.length ≤ n →
      ∀ (r : ParsedCmd), scanTokens xs r = specScan xs r := by
  intro n
  induction n with
  | zero =>
    intro xs hlen r
    have hx : xs = [] := List.length_eq_zero.mp (Nat.le_zero.mp hlen)
    subst hx
    rfl
  | succ n ih =>
    intro xs hlen r
    match xs with
    | [] => rfl
    | [t] =>
      by_cases h1 : t = ">"
      · subst h1; rfl
      · by_cases h2 : t = ">>"
        · subst h2; rfl
        · by_cases h3 : t = "<"
          · subst h3; rfl
          · rw [scanTokens_arg t [] r h1 h2 h3, scanTokens_nil, specScan_single,
              if_neg (by simp [redirOps, h1, h2, h3])]
    | t :: f :: rest =>
      simp only [List.length_cons, Nat.add_le_add_iff_right] at hlen
      by_cases h1 : t = ">"
      · subst h1
        rw [scanTokens_gt, specScan_cons,
          if_pos (show ">" ∈ redirOps by decide)]
        exact ih rest (by omega) _
      · by_cases h2 : t = ">>"
        · subst h2
          rw [scanTokens_gtgt, specScan_cons,
            if_pos (show ">>" ∈ redirOps by decide)]
          rw [show specRedirApply ">>" f r =
            { r with output_file := some f, append := true } from rfl]
          exact ih rest (by omega) _
        · by_cases h3 : t = "<"
          · subst h3
            rw [scanTokens_lt, specScan_cons,
              if_pos (show "<" ∈ redirOps by decide)]
            rw [show specRedirApply "<" f r = { r with input_file := some f } from rfl]
            exact ih rest (by omega) _
          · rw [scanTokens_arg t (f :: rest) r h1 h2 h3, specScan_cons,
              if_neg (by simp [redirOps, h1, h2, h3])]
            exact ih (f :: rest) (by simp only [List.length_cons]; omega) _

/-! ## Step lemmas for the tokenizer state machine -/

theorem shlexAux_nil_ws (tok : List Char) (q : Bool) (acc : List (List Char)) :
    shlexAux [] .ws tok q acc =
      .ok (acc ++ if tok.isEmpty && !q then [] else [tok]) := rfl

theorem shlexAux_nil_word (tok : List Char) (q : Bool) (acc : List (List Char)) :
    shlexAux [] .word tok q acc =
      .ok (acc ++ if tok.isEmpty && !q then [] else [tok]) := rfl

theorem shlexAux_nil_quote (qc : Char) (tok : List Char) (q : Bool)
    (acc : List (List Char)) :
    shlexAux [] (.quote qc) tok q acc = .error "No closing quotation" := rfl

theorem shlexAux_nil_esc (b : LexState) (tok : List Char) (q : Bool)
    (acc : List (List Char)) :
    shlexAux [] (.esc b) tok q acc = .error "No escaped character" := rfl

theorem shlexAux_cons_ws (c : Char) (cs tok : List Char) (q : Bool)
    (acc : List (List Char)) :
    shlexAux (c :: cs) .ws tok q acc =
      (if pyIsSpace c then
        if tok.isEmpty && !q then shlexAux cs .ws tok q acc
        else shlexAux cs .ws [] false (acc ++ [tok])
      else if c = '\\' then shlexAux cs (.esc .word) tok q acc
      else if c = squote || c = '"' then shlexAux cs (.quote c) tok q acc
      else shlexAux cs .word (tok ++ [c]) q acc) := rfl

theorem shlexAux_cons_word (c : Char) (cs tok : List Char) (q : Bool)
    (acc : List (List Char)) :
    shlexAux (c :: cs) .word tok q acc =
      (if pyIsSpace c then
        if tok.isEmpty && !q then shlexAux cs .ws tok q acc
        else shlexAux cs .ws [] false (acc ++ [tok])
      else if c = squote || c = '"' then shlexAux cs (.quote c) tok q acc
      else if c = '\\' then shlexAux cs (.esc .word) tok q acc
      else shlexAux cs .word (tok ++ [c]) q acc) := rfl

theorem shlexAux_cons_quote (qc c : Char) (cs tok : List Char) (q : Bool)
    (acc : List (List Char)) :
    shlexAux (c :: cs) (.quote qc) tok q acc =
      (if c = qc then shlexAux cs .word tok true acc
      else if qc = '"' && c = '\\' then
        shlexAux cs (.esc (.quote qc)) tok true acc
      else shlexAux cs (.quote qc) (tok ++ [c]) true acc) := rfl

theorem shlexAux_cons_esc_quote (qe c : Char) (cs tok : List Char) (q : Bool)
    (acc : List (List Char)) :
    shlexAux (c :: cs) (.esc (.quote qe)) tok q acc =
      (if c ≠ '\\' && c ≠ qe then
        shlexAux cs (.quote qe) (tok ++ ['\\', c]) q acc
      else shlexAux cs (.quote qe) (tok ++ [c]) q acc) := rfl

theorem shlexAux_cons_esc_ws (c : Char) (cs tok : List Char) (q : Bool)
    (acc : List (List Char)) :
    shlexAux (c :: cs) (.esc .ws) tok q acc =
      shlexAux cs .ws (tok ++ [c]) q acc := rfl

theorem shlexAux_cons_esc_word (c : Char) (cs tok : List Char) (q : Bool)
    (acc : List (List Char)) :
    shlexAux (c :: cs) (.esc .word) tok q acc =
      shlexAux cs .word (tok ++ [c]) q acc := rfl

theorem shlexAux_cons_esc_esc (b : LexState) (c : Char) (cs tok : List Char)
    (q : Bool) (acc : List (List Char)) :
    shlexAux (c :: cs) (.esc (.esc b)) tok q acc =
      shlexAux cs (.esc b) (tok ++ [c]) q acc := rfl

/-! ## Character provenance: tokens only contain input characters
(plus possibly the escape character) -/

theorem not_mem_push {c0 c : Char} {tok : List Char} (h : c0 ∉ tok)
    (hne : c0 ≠ c) : c0 ∉ tok ++ [c] := by
  intro hmem
  rcases List.mem_append.mp hmem with h1 | h1
  · exact h h1
  · exact hne (List.mem_singleton.mp h1)

theorem not_mem_push2 {c0 c : Char} {tok : List Char} (h : c0 ∉ tok)
    (hb : c0 ≠ '\\') (hne : c0 ≠ c) : c0 ∉ tok ++ ['\\', c] := by
  intro hmem
  rcases List.mem_append.mp hmem with h1 | h1
  · exact h h1
  · rcases List.mem_cons.mp h1 with h2 | h2
    · exact hb h2
    · exact hne (List.mem_singleton.mp h2)

theorem acc_push {c0 : Char} {acc : List (List Char)} {tok : List Char}
    (hacc : ∀ t ∈ acc, c0 ∉ t) (htok : c0 ∉ tok) :
    ∀ t ∈ acc ++ [tok], c0 ∉ t := by
  intro t ht
  rcases List.mem_append.mp ht with h1 | h1
  · exact hacc t h1
  · rw [List.mem_singleton.mp h1]
    exact htok

/-- A character other than the escape character that does not occur in
the remaining input, the pending token, or the emitted tokens, does not
occur in any token the lexer produces. -/
theorem shlexAux_no_char {c0 : Char} (hc0 : c0 ≠ '\\') :
    ∀ (cs : List Char) (st : LexState) (tok : List Char) (q : Bool)
      (acc : List (List Char)) (out : List (List Char)),
      c0 ∉ cs → c0 ∉ tok → (∀ t ∈ acc, c0 ∉ t) →
      shlexAux cs st tok q acc = .ok out → ∀ t ∈ out, c0 ∉ t := by
  intro cs
  induction cs with
  | nil =>
    intro st tok q acc out _ htok hacc h
    cases st with
    | ws =>
      rw [shlexAux_nil_ws] at h
      injection h with h
      subst h
      intro t ht
      by_cases he : tok.isEmpty && !q
      · rw [if_pos he, List.append_nil] at ht
        exact hacc t ht
      · rw [if_neg he] at ht
        exact acc_push hacc htok t ht
    | word =>
      rw [shlexAux_nil_word] at h
      injection h with h
      subst h
      intro t ht
      by_cases he : tok.isEmpty && !q
      · rw [if_pos he, List.append_nil] at ht
        exact hacc t ht
      · rw [if_neg he] at ht
        exact acc_push hacc htok t ht
    | quote qc =>
      rw [shlexAux_nil_quote] at h
      exact Except.noConfusion h
    | esc b =>
      rw [shlexAux_nil_esc] at h
      exact Except.noConfusion h
  | cons c cs ih =>
    intro st tok q acc out hcs htok hacc h
    have hcc : c0 ≠ c := fun he => hcs (he ▸ List.mem_cons_self c cs)
    have hcs2 : c0 ∉ cs := fun he => hcs (List.mem_cons_of_mem c he)
    cases st with
    | ws =>
      rw [shlexAux_cons_ws] at h
      by_cases h1 : pyIsSpace c
      · rw [if_pos h1] at h
        by_cases h2 : tok.isEmpty && !q
        · rw [if_pos h2] at h
          exact ih _ _ _ _ _ hcs2 htok hacc h
        · rw [if_neg h2] at h
          exact ih _ _ _ _ _ hcs2 (by simp) (acc_push hacc htok) h
      · rw [if_neg h1] at h
        by_cases h2 : c = '\\'
        · rw [if_pos h2] at h
          exact ih _ _ _ _ _ hcs2 htok hacc h
        · rw [if_neg h2] at h
          by_cases h3 : c = squote || c = '"'
          · rw [if_pos h3] at h
            exact ih _ _ _ _ _ hcs2 htok hacc h
          · rw [if_neg h3] at h
            exact ih _ _ _ _ _ hcs2 (not_mem_push htok hcc) hacc h
    | word =>
      rw [shlexAux_cons_word] at h
      by_cases h1 : pyIsSpace c
      · rw [if_pos h1] at h
        by_cases h2 : tok.isEmpty && !q
        · rw [if_pos h2] at h
          exact ih _ _ _ _ _ hcs2 htok hacc h
        · rw [if_neg h2] at h
          exact ih _ _ _ _ _ hcs2 (by simp) (acc_push hacc htok) h
      · rw [if_neg h1] at h
        by_cases h2 : c = squote || c = '"'
        · rw [if_pos h2] at h
          exact ih _ _ _ _ _ hcs2 htok hacc h
        · rw [if_neg h2] at h
          by_cases h3 : c = '\\'
          · rw [if_pos h3] at h
            exact ih _ _ _ _ _ hcs2 htok hacc h
          · rw [if_neg h3] at h
            exact ih _ _ _ _ _ hcs2 (not_mem_push htok hcc) hacc h
    | quote qc =>
      rw [shlexAux_cons_quote] at h
      by_cases h1 : c = qc
      · rw [if_pos h1] at h
        exact ih _ _ _ _ _ hcs2 htok hacc h
      · rw [if_neg h1] at h
        by_cases h2 : qc = '"' && c = '\\'
        · rw [if_pos h2] at h
          exact ih _ _ _ _ _ hcs2 htok hacc h
        · rw [if_neg h2] at h
          exact ih _ _ _ _ _ hcs2 (not_mem_push htok hcc) hacc h
    | esc back =>
      cases back with
      | quote qe =>
        rw [shlexAux_cons_esc_quote] at h
        by_cases h1 : c ≠ '\\' && c ≠ qe
        · rw [if_pos h1] at h
          exact ih _ _ _ _ _ hcs2 (not_mem_push2 htok hc0 hcc) hacc h
        · rw [if_neg h1] at h
          exact ih _ _ _ _ _ hcs2 (not_mem_push htok hcc) hacc h
      | ws =>
        rw [shlexAux_cons_esc_ws] at h
        exact ih _ _ _ _ _ hcs2 (not_mem_push htok hcc) hacc h
      | word =>
        rw [shlexAux_cons_esc_word] at h
        exact ih _ _ _ _ _ hcs2 (not_mem_push htok hcc) hacc h
      | esc b =>
        rw [shlexAux_cons_esc_esc] at h
        exact ih _ _ _ _ _ hcs2 (not_mem_push htok hcc) hacc h

/-- Tokens produced by `shlexSplit` never contain a character that is
absent from the input (escape character aside). -/
theorem shlexSplit_no_char {c0 : Char} (hc0 : c0 ≠ '\\') (s : String)
    (toks : List String) (h : shlexSplit s = .ok toks) (hs : c0 ∉ s.toList) :
    ∀ t ∈ toks, c0 ∉ t.toList := by
  rw [shlexSplit] at h
  cases haux : shlexAux s.toList .ws [] false [] with
  | error e =>
    rw [haux] at h
    exact Except.noConfusion h
  | ok ts =>
    rw [haux] at h
    injection h with h
    subst h
    intro t ht
    rcases List.mem_map.mp ht with ⟨l, hl, rfl⟩
    exact shlexAux_no_char hc0 s.toList .ws [] false [] ts hs (by simp)
      (by simp) haux l hl

/-! ## Claims about the command parser's redirection scan -/

/-- C4 (counterexample): on `["cat", ">>", "a", ">", "b"]` the last output
operator `>` does win for `outputPath` ("b"), but `appendOutput` stays
`true` from the earlier `>>` — it is not `false` as the claim asserts. -/
theorem c4_counterexample :
    parseCommandTokens ["cat", ">>", "a", ">", "b"] =
      .ok { command := "cat", args := [], input_file := none,
            output_file := some "b", append := true } ∧
    parseCommandTokens ["cat", ">>", "a", ">", "b"] ≠
      .ok { command := "cat", args := [], input_file := none,
            output_file := some "b", append := false } := by
  constructor
  · rfl
  · decide

/-- C4 (amended): the last output-redirection operator wins for
`outputPath`, but `appendOutput` is sticky — a trailing `> f` overwrites
the output path and leaves `append` unchanged, while a trailing `>> f`
overwrites it and sets `append`, whatever was scanned before. -/
theorem c4_amended (toks : List String) (r p : ParsedCmd) (f : String)
    (h : scanTokens toks r = .ok p) :
    scanTokens (toks ++ [">", f]) r = .ok { p with output_file := some f } ∧
    scanTokens (toks ++ [">>", f]) r =
      .ok { p with output_file := some f, append := true } := by
  refine ⟨?_, ?_⟩
  · rw [scanTokens_append toks r p [">", f] h, scanTokens_gt, scanTokens_nil]
  · rw [scanTokens_append toks r p [">>", f] h, scanTokens_gtgt, scanTokens_nil]

/-- C4 witness: the amended last-wins behaviour at the claim's own
example, reached by scanning `[">>", "a"]` and then appending `> "b"`. -/
theorem c4_amended_witness :
    scanTokens ([">>", "a"] ++ [">", "b"])
      { command := "cat", args := [], input_file := none, output_file := none,
        append := false } =
    .ok { command := "cat", args := [], input_file := none,
          output_file := some "b", append := true } :=
  (c4_amended [">>", "a"]
    { command := "cat", args := [], input_file := none, output_file := none,
      append := false }
    { command := "cat", args := [], input_file := none,
      output_file := some "a", append := true } "b" rfl).1

/-- C6 (counterexample): the claim's description makes `>` set
`appendOutput` to false; on `["ls", ">>", "x", ">", "y"]` the code keeps
`appendOutput` true while storing "y" as the output path. -/
theorem c6_counterexample :
    parseCommandTokens ["ls", ">>", "x", ">", "y"] =
      .ok { command := "ls", args := [], input_file := none,
            output_file := some "y", append := true } ∧
    parseCommandTokens ["ls", ">>", "x", ">", "y"] ≠
      .ok { command := "ls", args := [], input_file := none,
            output_file := some "y", append := false } := by
  constructor
  · rfl
  · decide

/-- C6 (amended): for every token sequence, `parse_command`'s tokens-level
behaviour is exactly the spec's §4.2 scan with `>` leaving `appendOutput`
unchanged: first token is the program, `>`/`>>`/`<` consume the following
token as output path (append unchanged), output path (append set), and
input path, other tokens are appended in order to the arguments, and a
redirection operator as final token is a missing-filename error. -/
theorem c6_amended :
    ∀ toks : List String, parseCommandTokens toks = specParseCommand toks := by
  intro toks
  match toks with
  | [] => rfl
  | t :: ts =>
    show scanTokens ts _ = specScan ts _
    exact scanTokens_eq_specScan_aux ts.length ts le_rfl _

/-- C10: a redirection operator immediately followed by another
redirection operator consumes the second operator as its filename — the
scan continues past both, the arguments are untouched, and the second
operator is stored as the input or output path; in particular
`["ls", ">", ">>"]` parses with output path `">>"` and no error. -/
theorem c10 (r : ParsedCmd) (op1 op2 : String) (rest : List String)
    (h1 : op1 ∈ redirOps) (_h2 : op2 ∈ redirOps) :
    (∃ p, scanTokens (op1 :: op2 :: rest) r = scanTokens rest p ∧
       p.args = r.args ∧
       (op1 = "<" → p.input_file = some op2) ∧
       (op1 = ">" ∨ op1 = ">>" → p.output_file = some op2)) ∧
    parseCommandTokens ["ls", ">", ">>"] =
      .ok { command := "ls", args := [], input_file := none,
            output_file := some ">>", append := false } := by
  refine ⟨?_, rfl⟩
  simp only [redirOps, List.mem_cons, List.not_mem_nil, or_false] at h1
  rcases h1 with rfl | rfl | rfl
  · refine ⟨{ r with output_file := some op2 },
      scanTokens_gt op2 rest r, rfl, ?_, ?_⟩
    · intro hx; exact absurd hx (by decide)
    · intro hx; rfl
  · refine ⟨{ r with output_file := some op2, append := true },
      scanTokens_gtgt op2 rest r, rfl, ?_, ?_⟩
    · intro hx; exact absurd hx (by decide)
    · intro hx; rfl
  · refine ⟨{ r with input_file := some op2 },
      scanTokens_lt op2 rest r, rfl, ?_, ?_⟩
    · intro hx; rfl
    · intro hx
      exact absurd hx (by decide)

/-! ## Provenance through the command and pipeline parsers -/

theorem parseCommandTokens_cons (t : String) (ts : List String) :
    parseCommandTokens (t :: ts) =
      scanTokens ts
        { command := t, args := [], input_file := none, output_file := none,
          append := false } := rfl

/-- The scanned descriptor's program is the initial one and each argument
comes either from the initial descriptor or from the scanned tokens
(bounded-length form). -/
theorem scanTokens_parts_aux :
    ∀ (n : Nat) (toks : List String), toks.length ≤ n →
      ∀ (r p : ParsedCmd), scanTokens toks r = .ok p →
        p.command = r.command ∧ ∀ a ∈ p.args, a ∈ r.args ∨ a ∈ toks := by
  intro n
  induction n with
  | zero =>
    intro toks hlen r p h
    have hx : toks = [] := List.length_eq_zero.mp (Nat.le_zero.mp hlen)
    subst hx
    rw [scanTokens_nil] at h
    injection h with h
    subst h
    exact ⟨rfl, fun a ha => Or.inl ha⟩
  | succ n ih =>
    intro toks hlen r p h
    match toks with
    | [] =>
      rw [scanTokens_nil] at h
      injection h with h
      subst h
      exact ⟨rfl, fun a ha => Or.inl ha⟩
    | t :: rest =>
      simp only [List.length_cons, Nat.add_le_add_iff_right] at hlen
      by_cases h1 : t = ">"
      · subst h1
        match rest with
        | [] => simp [scanTokens] at h
        | f :: rest2 =>
          rw [scanTokens_gt] at h
          obtain ⟨hcmd, hargs⟩ :=
            ih rest2 (by simp only [List.length_cons] at hlen; omega) _ p h
          refine ⟨hcmd, fun a ha => ?_⟩
          rcases hargs a ha with h' | h'
          · exact Or.inl h'
          · exact Or.inr (List.mem_cons_of_mem _ (List.mem_cons_of_mem _ h'))
      · by_cases h2 : t = ">>"
        · subst h2
          match rest with
          | [] => simp [scanTokens] at h
          | f :: rest2 =>
            rw [scanTokens_gtgt] at h
            obtain ⟨hcmd, hargs⟩ :=
              ih rest2 (by simp only [List.length_cons] at hlen; omega) _ p h
            refine ⟨hcmd, fun a ha => ?_⟩
            rcases hargs a ha with h' | h'
            · exact Or.inl h'
            · exact Or.inr (List.mem_cons_of_mem _ (List.mem_cons_of_mem _ h'))
        · by_cases h3 : t = "<"
          · subst h3
            match rest with
            | [] => simp [scanTokens] at h
            | f :: rest2 =>
              rw [scanTokens_lt] at h
              obtain ⟨hcmd, hargs⟩ :=
                ih rest2 (by simp only [List.length_cons] at hlen; omega) _ p h
              refine ⟨hcmd, fun a ha => ?_⟩
              rcases hargs a ha with h' | h'
              · exact Or.inl h'
              · exact Or.inr (List.mem_cons_of_mem _ (List.mem_cons_of_mem _ h'))
          · rw [scanTokens_arg t rest r h1 h2 h3] at h
            obtain ⟨hcmd, hargs⟩ := ih rest (by omega) _ p h
            refine ⟨hcmd, fun a ha => ?_⟩
            rcases hargs a ha with h' | h'
            · rcases List.mem_append.mp h' with h'' | h''
              · exact Or.inl h''
              · exact Or.inr
                  (List.mem_singleton.mp h'' ▸ List.mem_cons_self t rest)
            · exact Or.inr (List.mem_cons_of_mem _ h')

/-- A successfully parsed command's program and arguments only contain
characters of the parsed string (escape character aside). -/
theorem parse_command_no_pipe {c0 : Char} (hc0 : c0 ≠ '\\') (s : String)
    (p : ParsedCmd) (h : parse_command s = .ok p) (hs : c0 ∉ s.toList) :
    c0 ∉ p.command.toList ∧ ∀ a ∈ p.args, c0 ∉ a.toList := by
  rw [parse_command] at h
  cases hsp : shlexSplit s with
  | error e =>
    rw [hsp] at h
    exact Except.noConfusion h
  | ok toks =>
    rw [hsp] at h
    have htoks := shlexSplit_no_char hc0 s toks hsp hs
    match toks with
    | [] => exact Except.noConfusion h
    | t :: ts =>
      have h2 : scanTokens ts
          { command := t, args := [], input_file := none, output_file := none,
            append := false } = .ok p := h
      obtain ⟨hcmd, hargs⟩ := scanTokens_parts_aux ts.length ts le_rfl _ p h2
      refine ⟨?_, ?_⟩
      · rw [hcmd]
        exact htoks t (List.mem_cons_self t ts)
      · intro a ha
        rcases hargs a ha with h' | h'
        · exact absurd h' (List.not_mem_nil a)
        · exact htoks a (List.mem_cons_of_mem t h')

theorem dropWhile_subset {p : Char → Bool} :
    ∀ (l : List Char) (c : Char), c ∈ l.dropWhile p → c ∈ l := by
  intro l
  induction l with
  | nil =>
    intro c hc
    simp at hc
  | cons x xs ih =>
    intro c hc
    rw [List.dropWhile] at hc
    cases hp : p x with
    | true =>
      rw [hp] at hc
      exact List.mem_cons_of_mem x (ih c hc)
    | false =>
      rw [hp] at hc
      exact hc

/-- Stripping only removes characters. -/
theorem pyStrip_subset (s : String) : ∀ c ∈ (pyStrip s).toList, c ∈ s.toList := by
  intro c hc
  have hc1 : c ∈ ((s.toList.dropWhile pyIsSpace).reverse.dropWhile
      pyIsSpace).reverse := hc
  have hc2 : c ∈ (s.toList.dropWhile pyIsSpace).reverse :=
    dropWhile_subset _ c (List.mem_reverse.mp hc1)
  exact dropWhile_subset _ c (List.mem_reverse.mp hc2)

theorem splitOnChar_cons (sep c : Char) (cs : List Char) :
    splitOnChar sep (c :: cs) =
      if c = sep then [] :: splitOnChar sep cs
      else
        match splitOnChar sep cs with
        | t :: ts => (c :: t) :: ts
        | [] => [[c]] := rfl

/-- No segment produced by the raw split contains the separator. -/
theorem splitOnChar_not_mem (sep : Char) :
    ∀ (cs : List Char) (l : List Char), l ∈ splitOnChar sep cs → sep ∉ l := by
  intro cs
  induction cs with
  | nil =>
    intro l hl
    rw [show splitOnChar sep [] = [[]] from rfl] at hl
    rw [List.mem_singleton.mp hl]
    exact List.not_mem_nil sep
  | cons c cs ih =>
    intro l hl
    rw [splitOnChar_cons] at hl
    by_cases h : c = sep
    · rw [if_pos h] at hl
      rcases List.mem_cons.mp hl with rfl | hl2
      · exact List.not_mem_nil sep
      · exact ih l hl2
    · rw [if_neg h] at hl
      cases hr : splitOnChar sep cs with
      | nil =>
        rw [hr] at hl
        rw [List.mem_singleton.mp hl]
        intro hmem
        exact h (List.mem_singleton.mp hmem).symm
      | cons t ts =>
        rw [hr] at hl
        rcases List.mem_cons.mp hl with rfl | hl2
        · intro hmem
          rcases List.mem_cons.mp hmem with h2 | h2
          · exact h h2.symm
          · exact ih t (by rw [hr]; exact List.mem_cons_self t ts) h2
        · exact ih l (by rw [hr]; exact List.mem_cons_of_mem t hl2)

theorem parsePipelineSegs_cons (seg : String) (rest : List String) :
    parsePipelineSegs (seg :: rest) =
      if pyStrip seg = "" then .error "Empty command in pipeline"
      else
        match parse_command (pyStrip seg) with
        | .error e => .error e
        | .ok p =>
          match parsePipelineSegs rest with
          | .error e => .error e
          | .ok ps => .ok (p :: ps) := rfl

/-- Programs and arguments of a successfully parsed pipeline only contain
characters of their own segment. -/
theorem parsePipelineSegs_no_pipe :
    ∀ (segs : List String) (cmds : List ParsedCmd),
      (∀ seg ∈ segs, '|' ∉ seg.toList) →
      parsePipelineSegs segs = .ok cmds →
      ∀ c ∈ cmds, '|' ∉ c.command.toList ∧ ∀ a ∈ c.args, '|' ∉ a.toList := by
  intro segs
  induction segs with
  | nil =>
    intro cmds _ h c hc
    injection h with h
    subst h
    exact absurd hc (List.not_mem_nil c)
  | cons seg rest ih =>
    intro cmds hsegs h c hc
    rw [parsePipelineSegs_cons] at h
    by_cases hempty : pyStrip seg = ""
    · rw [if_pos hempty] at h
      exact Except.noConfusion h
    · rw [if_neg hempty] at h
      cases hp : parse_command (pyStrip seg) with
      | error e =>
        rw [hp] at h
        exact Except.noConfusion h
      | ok p =>
        rw [hp] at h
        cases hrest : parsePipelineSegs rest with
        | error e =>
          rw [hrest] at h
          exact Except.noConfusion h
        | ok ps =>
          rw [hrest] at h
          injection h with h
          subst h
          rcases List.mem_cons.mp hc with rfl | hc2
          · refine parse_command_no_pipe (by decide) _ _ hp ?_
            intro hmem
            exact hsegs seg (List.mem_cons_self _ _) (pyStrip_subset seg _ hmem)
          · exact ih ps (fun s hs => hsegs s (List.mem_cons_of_mem _ hs))
              hrest c hc2

/-- C5 (counterexample): the line `echo "a|b"` does not parse as a single
stage — the quoted `|` still splits it, leaving an unterminated quote in
the first segment, so `parse_pipeline` returns a syntax error. -/
theorem c5_counterexample :
    parse_pipeline "echo \"a|b\"" = .error "Syntax error: No closing quotation" ∧
    ∀ cmds, parse_pipeline "echo \"a|b\"" ≠ .ok cmds := by
  refine ⟨by decide, ?_⟩
  intro cmds h
  rw [show parse_pipeline "echo \"a|b\"" =
    .error "Syntax error: No closing quotation" from by decide] at h
  exact Except.noConfusion h

/-- C5 (amended): pipeline splitting happens on every `|` of the raw
line, quoted or escaped ones included — consequently no program name or
argument of a successfully parsed pipeline ever contains `|`, and
`echo "a|b"` fails with a syntax error instead of parsing as one stage. -/
theorem c5_amended :
    (∀ (s : String) (cmds : List ParsedCmd),
      parse_pipeline s = .ok cmds →
      ∀ c ∈ cmds, '|' ∉ c.command.toList ∧ ∀ a ∈ c.args, '|' ∉ a.toList) ∧
    parse_pipeline "echo \"a|b\"" =
      .error "Syntax error: No closing quotation" := by
  refine ⟨?_, by decide⟩
  intro s cmds h
  refine parsePipelineSegs_no_pipe _ _ ?_ h
  intro seg hseg
  rcases List.mem_map.mp hseg with ⟨l, hl, rfl⟩
  exact splitOnChar_not_mem '|' s.toList l hl

/-- C5 witness: the amended no-pipe-in-arguments property applied to a
concrete two-stage line. -/
theorem c5_amended_witness :
    '|' ∉ "grep".toList ∧ ∀ a ∈ ["b"], '|' ∉ a.toList :=
  c5_amended.1 "cat f|grep b"
    [{ command := "cat", args := ["f"], input_file := none,
       output_file := none, append := false },
     { command := "grep", args := ["b"], input_file := none,
       output_file := none, append := false }]
    (by decide)
    { command := "grep", args := ["b"], input_file := none,
      output_file := none, append := false }
    (by simp)

/-! ## Lemmas about the pipeline parser -/

/-- The segment loop is first-error sequencing of the per-segment
outcomes. -/
theorem parsePipelineSegs_eq_seq :
    ∀ segs : List String,
      parsePipelineSegs segs = seqExcept (segs.map segOutcome) := by
  intro segs
  induction segs with
  | nil => rfl
  | cons seg rest ih =>
    rw [parsePipelineSegs, List.map_cons]
    by_cases hseg : pyStrip seg = ""
    · rw [if_pos hseg]
      rw [show segOutcome seg = .error "Empty command in pipeline" from
        by rw [segOutcome, if_pos hseg]]
      rfl
    · rw [if_neg hseg]
      rw [show segOutcome seg = parse_command (pyStrip seg) from
        by rw [segOutcome, if_neg hseg]]
      cases hp : parse_command (pyStrip seg) with
      | error e => rfl
      | ok p =>
        rw [seqExcept, ← ih]

/-- If some element of the list is an error, first-error sequencing
produces an error. -/
theorem seqExcept_error_of_mem :
    ∀ (l : List (Except String ParsedCmd)) (e : String),
      Except.error e ∈ l → ∃ e', seqExcept l = .error e' := by
  intro l e
  induction l with
  | nil => intro h; cases h
  | cons x rest ih =>
    intro h
    rw [List.mem_cons] at h
    rcases h with hx | hm
    · subst hx
      exact ⟨e, rfl⟩
    · cases x with
      | error e2 => exact ⟨e2, rfl⟩
      | ok p =>
        obtain ⟨e', he'⟩ := ih hm
        exact ⟨e', by rw [seqExcept, he']⟩

/-- C7: `parse_pipeline` is exactly first-error sequencing of the raw
`|`-split segments, where an empty-after-strip segment is the
empty-stage error and any other segment contributes its tokenize/parse
result; in particular it errors whenever some segment strips to empty
(leading/trailing `|` and `||` included), and never returns a partial
pipeline. -/
theorem c7 :
    (∀ s : String,
      parse_pipeline s =
        seqExcept ((((splitOnChar '|' s.toList).map fun t => String.mk t).map
          segOutcome))) ∧
    (∀ s : String,
      (∃ seg ∈ (splitOnChar '|' s.toList).map (fun t => String.mk t),
          pyStrip seg = "") →
      ∃ e, parse_pipeline s = .error e) ∧
    parse_pipeline "a | | c" = .error "Empty command in pipeline" ∧
    parse_pipeline "a |" = .error "Empty command in pipeline" ∧
    parse_pipeline "| a" = .error "Empty command in pipeline" := by
  refine ⟨?_, ?_, by decide, by decide, by decide⟩
  · intro s
    exact parsePipelineSegs_eq_seq _
  · intro s ⟨seg, hmem, hempty⟩
    rw [parse_pipeline, parsePipelineSegs_eq_seq]
    apply seqExcept_error_of_mem _ "Empty command in pipeline"
    have : segOutcome seg = .error "Empty command in pipeline" := by
      rw [segOutcome, if_pos hempty]
    rw [← this]
    exact List.mem_map_of_mem segOutcome hmem

/-- C7 witness: the error-on-empty-segment part applied at a concrete
line with a doubled pipe. -/
theorem c7_witness : ∃ e, parse_pipeline "x | | y" = .error e :=
  c7.2.1 "x | | y" (by decide)

/-- C10 witness: the theorem applied at the claim's example input. -/
theorem c10_witness :
    parseCommandTokens ["ls", ">", ">>"] =
      .ok { command := "ls", args := [], input_file := none,
            output_file := some ">>", append := false } :=
  (c10 { command := "ls", args := [], input_file := none, output_file := none,
         append := false } ">" ">>" [] (by decide) (by decide)).2

/-! ## Lemmas about the pipeline executor -/

theorem launchLoop_nil (env : Env) (i : Nat) (st : LoopState) :
    launchLoop env [] i st = .ok st := rfl

theorem launchLoop_cons (env : Env) (cmd : ParsedCmd) (rest : List ParsedCmd)
    (i : Nat) (st : LoopState) :
    launchLoop env (cmd :: rest) i st =
      (match (if i = 0 && truthy cmd.input_file then
                (if env.fileExists (cmd.input_file.getD "") then
                  .ok { st with
                    opened := st.opened ++
                      [Handle.inFile (cmd.input_file.getD "")] }
                else .error (.fileNotFound, st))
              else (.ok st : Except (PipeExc × LoopState) LoopState)) with
       | .error e => .error e
       | .ok st1 => stageAfterStdin env cmd rest i st1) := rfl

theorem launchLoop_cons_noInput (env : Env) (cmd : ParsedCmd)
    (rest : List ParsedCmd) (i : Nat) (st : LoopState)
    (h : (i = 0 && truthy cmd.input_file) = false) :
    launchLoop env (cmd :: rest) i st = stageAfterStdin env cmd rest i st := by
  rw [launchLoop_cons, h, if_neg (by simp)]

theorem launchLoop_cons_inputMissing (env : Env) (cmd : ParsedCmd)
    (rest : List ParsedCmd) (i : Nat) (st : LoopState)
    (hC : (i = 0 && truthy cmd.input_file) = true)
    (hD : env.fileExists (cmd.input_file.getD "") = false) :
    launchLoop env (cmd :: rest) i st = .error (.fileNotFound, st) := by
  rw [launchLoop_cons, hC, if_pos rfl, hD, if_neg (by simp)]

theorem launchLoop_cons_inputOk (env : Env) (cmd : ParsedCmd)
    (rest : List ParsedCmd) (i : Nat) (st : LoopState)
    (hC : (i = 0 && truthy cmd.input_file) = true)
    (hD : env.fileExists (cmd.input_file.getD "") = true) :
    launchLoop env (cmd :: rest) i st =
      stageAfterStdin env cmd rest i
        { st with
          opened := st.opened ++ [Handle.inFile (cmd.input_file.getD "")] } := by
  rw [launchLoop_cons, hC, if_pos rfl, hD, if_pos rfl]

theorem stageAfterStdin_notFound (env : Env) (cmd : ParsedCmd)
    (rest : List ParsedCmd) (i : Nat) (st1 : LoopState)
    (hl : env.launch cmd.command = .notFound) :
    stageAfterStdin env cmd rest i st1 =
      .error (.fileNotFound,
        if rest.isEmpty && truthy cmd.output_file then
          { st1 with
            opened := st1.opened ++ [Handle.outFile (cmd.output_file.getD "")] }
        else st1) := by
  rw [stageAfterStdin.eq_def]
  simp only [hl]

theorem stageAfterStdin_perm (env : Env) (cmd : ParsedCmd)
    (rest : List ParsedCmd) (i : Nat) (st1 : LoopState)
    (hl : env.launch cmd.command = .permissionDenied) :
    stageAfterStdin env cmd rest i st1 =
      .error (.otherExc ("Permission denied: " ++ cmd.command),
        if rest.isEmpty && truthy cmd.output_file then
          { st1 with
            opened := st1.opened ++ [Handle.outFile (cmd.output_file.getD "")] }
        else st1) := by
  rw [stageAfterStdin.eq_def]
  simp only [hl]

theorem execute_pipeline_def (env : Env) (pl : List ParsedCmd) :
    execute_pipeline env pl =
      match launchLoop env pl 0 ⟨[], [], [], none⟩ with
      | .ok st =>
        { exit := 0, errMsgs := [], started := st.started, waited := st.started,
          opened := st.opened, closed := st.closed }
      | .error (.fileNotFound, st) =>
        { exit := 127, errMsgs := ["Command not found in pipeline"],
          started := st.started, waited := [], opened := st.opened,
          closed := st.closed }
      | .error (.otherExc m, st) =>
        { exit := 1, errMsgs := ["Pipeline error: " ++ m],
          started := st.started, waited := [], opened := st.opened,
          closed := st.closed } := rfl

theorem isStarted_started {o : LaunchOutcome} (h : o.isStarted = true) :
    ∃ k s, o = .started k s := by
  cases o with
  | started k s => exact ⟨k, s, rfl⟩
  | notFound => exact absurd h (by simp [LaunchOutcome.isStarted])
  | permissionDenied => exact absurd h (by simp [LaunchOutcome.isStarted])
  | otherErr m => exact absurd h (by simp [LaunchOutcome.isStarted])

/-- When every stage's launch succeeds (and the first stage's redirected
input, if any, exists), the launch loop completes normally. -/
theorem launchLoop_ok (env : Env) :
    ∀ (pl : List ParsedCmd) (i : Nat) (st : LoopState),
      (∀ c ∈ pl, (env.launch c.command).isStarted = true) →
      (∀ c path, i = 0 → pl.head? = some c → c.input_file = some path →
        path ≠ "" → env.fileExists path = true) →
      ∃ st', launchLoop env pl i st = .ok st' := by
  intro pl
  induction pl with
  | nil =>
    intro i st _ _
    exact ⟨st, rfl⟩
  | cons cmd rest ih =>
    intro i st hstart hinput
    obtain ⟨k, s, hl⟩ := isStarted_started (hstart cmd (List.mem_cons_self _ _))
    have hrest : ∀ c ∈ rest, (env.launch c.command).isStarted = true :=
      fun c hc => hstart c (List.mem_cons_of_mem _ hc)
    have hnext : ∀ c path, i + 1 = 0 → rest.head? = some c →
        c.input_file = some path → path ≠ "" → env.fileExists path = true := by
      intro c path habs
      exact absurd habs (Nat.succ_ne_zero i)
    by_cases hC : (i = 0 && truthy cmd.input_file) = true
    · have hC2 : i = 0 ∧ truthy cmd.input_file = true := by
        simpa only [Bool.and_eq_true, decide_eq_true_eq] using hC
      cases hin : cmd.input_file with
      | none =>
        rw [hin] at hC2
        exact absurd hC2.2 (by simp [truthy])
      | some path =>
        have hne : path ≠ "" := by
          have hx := hC2.2
          rw [hin] at hx
          simpa [truthy] using hx
        have hfe : env.fileExists path = true :=
          hinput cmd path hC2.1 rfl hin hne
        have hD : env.fileExists (cmd.input_file.getD "") = true := by
          rw [hin]; exact hfe
        rw [launchLoop_cons_inputOk env cmd rest i st hC hD]
        rw [stageAfterStdin.eq_def]
        simp only [hl]
        exact ih (i + 1) _ hrest hnext
    · have hC' : (i = 0 && truthy cmd.input_file) = false := by
        cases hb : (i = 0 && truthy cmd.input_file)
        · rfl
        · exact absurd hb hC
      rw [launchLoop_cons_noInput env cmd rest i st hC']
      rw [stageAfterStdin.eq_def]
      simp only [hl]
      exact ih (i + 1) _ hrest hnext

theorem prev_ite_pipeOut (b : Bool) (i : Nat) :
    ∀ h : Handle,
      (if b = true then some (Handle.pipeOut i) else none) = some h →
      ∃ j, h = Handle.pipeOut j := by
  intro h hh
  cases b
  · simp at hh
  · rw [if_pos rfl] at hh
    exact ⟨i, (Option.some.inj hh).symm⟩

/-- The only handles the launch-loop body ever closes are pipe read
ends handed forward through `prev_stdout`. -/
theorem stageAfterStdin_closed (env : Env) (cmd : ParsedCmd)
    (rest : List ParsedCmd) (i : Nat) (st1 : LoopState)
    (ih : ∀ (i' : Nat) (st : LoopState),
      (∀ h ∈ st.closed, ∃ j, h = Handle.pipeOut j) →
      (∀ h, st.prevStdout = some h → ∃ j, h = Handle.pipeOut j) →
      ∀ h ∈ closedOf (launchLoop env rest i' st), ∃ j, h = Handle.pipeOut j)
    (hcl : ∀ h ∈ st1.closed, ∃ j, h = Handle.pipeOut j)
    (hprev : ∀ h, st1.prevStdout = some h → ∃ j, h = Handle.pipeOut j) :
    ∀ h ∈ closedOf (stageAfterStdin env cmd rest i st1),
      ∃ j, h = Handle.pipeOut j := by
  rw [stageAfterStdin.eq_def]
  cases hco : (rest.isEmpty && truthy cmd.output_file) <;>
    cases hl : env.launch cmd.command <;>
      simp only [hl, hco, Bool.false_eq_true, if_false, if_pos rfl, if_true]
  case false.started k s =>
    cases hp : st1.prevStdout with
    | none =>
      simp only [hp]
      exact ih (i + 1) _ hcl (prev_ite_pipeOut _ i)
    | some h0 =>
      simp only [hp]
      apply ih (i + 1)
      · intro h hh
        rcases List.mem_append.mp hh with h1 | h1
        · exact hcl h h1
        · rw [List.mem_singleton.mp h1]
          exact hprev h0 hp
      · exact prev_ite_pipeOut _ i
  case true.started k s =>
    cases hp : st1.prevStdout with
    | none =>
      simp only [hp]
      exact ih (i + 1) _ hcl (prev_ite_pipeOut _ i)
    | some h0 =>
      simp only [hp]
      apply ih (i + 1)
      · intro h hh
        rcases List.mem_append.mp hh with h1 | h1
        · exact hcl h h1
        · rw [List.mem_singleton.mp h1]
          exact hprev h0 hp
      · exact prev_ite_pipeOut _ i
  case false.notFound => exact hcl
  case false.permissionDenied => exact hcl
  case false.otherErr m => exact hcl
  case true.notFound => exact hcl
  case true.permissionDenied => exact hcl
  case true.otherErr m => exact hcl

/-- Over a whole launch loop, every closed handle is a pipe read end. -/
theorem launchLoop_closed_pipeOut (env : Env) :
    ∀ (pl : List ParsedCmd) (i : Nat) (st : LoopState),
      (∀ h ∈ st.closed, ∃ j, h = Handle.pipeOut j) →
      (∀ h, st.prevStdout = some h → ∃ j, h = Handle.pipeOut j) →
      ∀ h ∈ closedOf (launchLoop env pl i st), ∃ j, h = Handle.pipeOut j := by
  intro pl
  induction pl with
  | nil =>
    intro i st hcl _
    rw [launchLoop_nil]
    exact hcl
  | cons cmd rest ih =>
    intro i st hcl hprev
    by_cases hC : (i = 0 && truthy cmd.input_file) = true
    · by_cases hD : env.fileExists (cmd.input_file.getD "") = true
      · rw [launchLoop_cons_inputOk env cmd rest i st hC hD]
        exact stageAfterStdin_closed env cmd rest i _ ih hcl hprev
      · have hD' : env.fileExists (cmd.input_file.getD "") = false := by
          cases hb : env.fileExists (cmd.input_file.getD "")
          · rfl
          · exact absurd hb hD
        rw [launchLoop_cons_inputMissing env cmd rest i st hC hD']
        exact hcl
    · have hC' : (i = 0 && truthy cmd.input_file) = false := by
        cases hb : (i = 0 && truthy cmd.input_file)
        · rfl
        · exact absurd hb hC
      rw [launchLoop_cons_noInput env cmd rest i st hC']
      exact stageAfterStdin_closed env cmd rest i _ ih hcl hprev

/-! ## Claims about the executors -/

/-- C1 (counterexample): a single-stage pipeline whose process starts and
exits with code 5 still makes `execute_pipeline` return 0, not the last
stage's exit code. -/
theorem c1_counterexample :
    (execute_pipeline ⟨fun _ => true, fun _ => .started 5 ""⟩
      [⟨"x", [], none, none, false⟩]).exit = 0 ∧
    (execute_pipeline ⟨fun _ => true, fun _ => .started 5 ""⟩
      [⟨"x", [], none, none, false⟩]).exit ≠ 5 := by
  constructor
  · rfl
  · decide

/-- C1 (amended): for every pipeline whose stages all start (and whose
first stage's redirected input, if any, exists), `execute_pipeline`
returns 0 as the whole pipeline's exit status, regardless of the stages'
actual exit codes — the per-stage codes collected by `wait` are
discarded. -/
theorem c1_amended (env : Env) (pl : List ParsedCmd)
    (hstart : ∀ c ∈ pl, (env.launch c.command).isStarted = true)
    (hinput : ∀ c path, pl.head? = some c → c.input_file = some path →
      path ≠ "" → env.fileExists path = true) :
    (execute_pipeline env pl).exit = 0 := by
  obtain ⟨st', h⟩ := launchLoop_ok env pl 0 ⟨[], [], [], none⟩ hstart
    (fun c path _ hh hin hne => hinput c path hh hin hne)
  rw [execute_pipeline_def, h]

/-- C1 witness: the amended theorem at a concrete one-stage pipeline
whose process exits with code 7. -/
theorem c1_amended_witness :
    (execute_pipeline ⟨fun _ => true, fun _ => .started 7 ""⟩
      [⟨"y", [], none, none, false⟩]).exit = 0 :=
  c1_amended ⟨fun _ => true, fun _ => .started 7 ""⟩
    [⟨"y", [], none, none, false⟩] (by decide)
    (by
      intro c path hc hif hne
      simp only [List.head?_cons, Option.some.injEq] at hc
      rw [← hc] at hif)

/-- C2 (counterexample): when stage "B" of the pipeline `A | B` fails to
launch after "A" was started, `execute_pipeline` returns without waiting
on "A" and without closing either parent-held handle of stage 0. -/
theorem c2_counterexample :
    (execute_pipeline ⟨fun _ => false,
      fun s => if s = "A" then .started 0 "" else .notFound⟩
      [⟨"A", [], none, none, false⟩, ⟨"B", [], none, none, false⟩]).started =
      [0] ∧
    (execute_pipeline ⟨fun _ => false,
      fun s => if s = "A" then .started 0 "" else .notFound⟩
      [⟨"A", [], none, none, false⟩, ⟨"B", [], none, none, false⟩]).waited =
      [] ∧
    (execute_pipeline ⟨fun _ => false,
      fun s => if s = "A" then .started 0 "" else .notFound⟩
      [⟨"A", [], none, none, false⟩, ⟨"B", [], none, none, false⟩]).opened =
      [Handle.pipeOut 0, Handle.pipeErr 0] ∧
    (execute_pipeline ⟨fun _ => false,
      fun s => if s = "A" then .started 0 "" else .notFound⟩
      [⟨"A", [], none, none, false⟩, ⟨"B", [], none, none, false⟩]).closed =
      [] ∧
    (execute_pipeline ⟨fun _ => false,
      fun s => if s = "A" then .started 0 "" else .notFound⟩
      [⟨"A", [], none, none, false⟩, ⟨"B", [], none, none, false⟩]).exit =
      127 := by
  decide

/-- C2 (amended): when any part of the launch loop raises,
`execute_pipeline` returns its error result immediately — no
already-started process is waited on (the wait loop runs only on the
success path) — and on every path (success or error) the only handles
the parent ever closes are pipe read ends handed forward through
`prev_stdout`: in particular no input-redirection and no
output-redirection file handle is ever closed. -/
theorem c2_amended (env : Env) (pl : List ParsedCmd) :
    ((execute_pipeline env pl).exit = 0 →
      (execute_pipeline env pl).waited = (execute_pipeline env pl).started) ∧
    ((execute_pipeline env pl).exit ≠ 0 →
      (execute_pipeline env pl).waited = []) ∧
    (∀ h ∈ (execute_pipeline env pl).closed, ∃ j, h = Handle.pipeOut j) ∧
    (∀ path, Handle.inFile path ∉ (execute_pipeline env pl).closed) ∧
    (∀ path, Handle.outFile path ∉ (execute_pipeline env pl).closed) := by
  have hclosed := launchLoop_closed_pipeOut env pl 0 ⟨[], [], [], none⟩
    (by intro h hh; exact absurd hh (List.not_mem_nil h))
    (by intro h hh; exact Option.noConfusion hh)
  rw [execute_pipeline_def]
  cases hres : launchLoop env pl 0 ⟨[], [], [], none⟩ with
  | ok st =>
    rw [hres] at hclosed
    refine ⟨fun _ => rfl, fun hne => absurd rfl hne, hclosed, ?_, ?_⟩
    · intro path hmem
      obtain ⟨j, hj⟩ := hclosed (Handle.inFile path) hmem
      exact Handle.noConfusion hj
    · intro path hmem
      obtain ⟨j, hj⟩ := hclosed (Handle.outFile path) hmem
      exact Handle.noConfusion hj
  | error e =>
    obtain ⟨exc, st⟩ := e
    rw [hres] at hclosed
    cases exc with
    | fileNotFound =>
      refine ⟨fun h => absurd (show (127 : Int) = 0 from h) (by decide),
        fun _ => rfl, hclosed, ?_, ?_⟩
      · intro path hmem
        obtain ⟨j, hj⟩ := hclosed (Handle.inFile path) hmem
        exact Handle.noConfusion hj
      · intro path hmem
        obtain ⟨j, hj⟩ := hclosed (Handle.outFile path) hmem
        exact Handle.noConfusion hj
    | otherExc m =>
      refine ⟨fun h => absurd (show (1 : Int) = 0 from h) (by decide),
        fun _ => rfl, hclosed, ?_, ?_⟩
      · intro path hmem
        obtain ⟨j, hj⟩ := hclosed (Handle.inFile path) hmem
        exact Handle.noConfusion hj
      · intro path hmem
        obtain ⟨j, hj⟩ := hclosed (Handle.outFile path) hmem
        exact Handle.noConfusion hj

/-- C2 witness: the amended abandoned-processes property at a concrete
two-stage pipeline whose second stage is not found. -/
theorem c2_amended_witness :
    (execute_pipeline ⟨fun _ => false,
      fun s => if s = "C" then .started 0 "" else .notFound⟩
      [⟨"C", [], none, none, false⟩, ⟨"D", [], none, none, false⟩]).waited =
      [] :=
  (c2_amended ⟨fun _ => false,
      fun s => if s = "C" then .started 0 "" else .notFound⟩
    [⟨"C", [], none, none, false⟩, ⟨"D", [], none, none, false⟩]).2.1
    (by decide)

/-- C3 (counterexample): a pipeline stage that fails to launch with a
permission error makes `execute_pipeline` return 1, not 126 — the
pipeline path has no `PermissionError` handler. -/
theorem c3_counterexample :
    (execute_pipeline ⟨fun _ => false, fun _ => .permissionDenied⟩
      [⟨"p", [], none, none, false⟩]).exit = 1 ∧
    (execute_pipeline ⟨fun _ => false, fun _ => .permissionDenied⟩
      [⟨"p", [], none, none, false⟩]).exit ≠ 126 := by
  constructor
  · rfl
  · decide

/-- When every stage before `c` starts (and the whole pipeline's first
stage's redirected input, if any, exists), the launch loop reaches `c`
and propagates `c`'s launch failure: a missing program surfaces as
`FileNotFoundError`, a permission failure as the generic exception. -/
theorem launchLoop_error_at (env : Env) (c : ParsedCmd)
    (rest : List ParsedCmd) :
    ∀ (pre : List ParsedCmd) (i : Nat) (st : LoopState),
      (∀ c' ∈ pre, (env.launch c'.command).isStarted = true) →
      (∀ c0 path, i = 0 → (pre ++ c :: rest).head? = some c0 →
        c0.input_file = some path → path ≠ "" →
        env.fileExists path = true) →
      (env.launch c.command = .notFound →
        ∃ st', launchLoop env (pre ++ c :: rest) i st =
          .error (.fileNotFound, st')) ∧
      (env.launch c.command = .permissionDenied →
        ∃ st', launchLoop env (pre ++ c :: rest) i st =
          .error (.otherExc ("Permission denied: " ++ c.command), st')) := by
  intro pre
  induction pre with
  | nil =>
    intro i st _ hinput
    rw [List.nil_append]
    by_cases hC : (i = 0 && truthy c.input_file) = true
    · have hC2 : i = 0 ∧ truthy c.input_file = true := by
        simpa only [Bool.and_eq_true, decide_eq_true_eq] using hC
      cases hin : c.input_file with
      | none =>
        rw [hin] at hC2
        exact absurd hC2.2 (by simp [truthy])
      | some path =>
        have hne : path ≠ "" := by
          have hx := hC2.2
          rw [hin] at hx
          simpa [truthy] using hx
        have hfe := hinput c path hC2.1 rfl hin hne
        have hD : env.fileExists (c.input_file.getD "") = true := by
          rw [hin]; exact hfe
        rw [launchLoop_cons_inputOk env c rest i st hC hD]
        constructor
        · intro hl
          rw [stageAfterStdin_notFound env c rest i _ hl]
          exact ⟨_, rfl⟩
        · intro hl
          rw [stageAfterStdin_perm env c rest i _ hl]
          exact ⟨_, rfl⟩
    · have hC' : (i = 0 && truthy c.input_file) = false := by
        cases hb : (i = 0 && truthy c.input_file)
        · rfl
        · exact absurd hb hC
      rw [launchLoop_cons_noInput env c rest i st hC']
      constructor
      · intro hl
        rw [stageAfterStdin_notFound env c rest i _ hl]
        exact ⟨_, rfl⟩
      · intro hl
        rw [stageAfterStdin_perm env c rest i _ hl]
        exact ⟨_, rfl⟩
  | cons p0 pre' ih =>
    intro i st hpre hinput
    obtain ⟨k, s, hl0⟩ :=
      isStarted_started (hpre p0 (List.mem_cons_self _ _))
    have hpre' : ∀ c' ∈ pre', (env.launch c'.command).isStarted = true :=
      fun c' hc' => hpre c' (List.mem_cons_of_mem _ hc')
    have hnext : ∀ c0 path, i + 1 = 0 →
        (pre' ++ c :: rest).head? = some c0 → c0.input_file = some path →
        path ≠ "" → env.fileExists path = true := by
      intro c0 path habs
      exact absurd habs (Nat.succ_ne_zero i)
    rw [List.cons_append]
    by_cases hC : (i = 0 && truthy p0.input_file) = true
    · have hC2 : i = 0 ∧ truthy p0.input_file = true := by
        simpa only [Bool.and_eq_true, decide_eq_true_eq] using hC
      cases hin : p0.input_file with
      | none =>
        rw [hin] at hC2
        exact absurd hC2.2 (by simp [truthy])
      | some path =>
        have hne : path ≠ "" := by
          have hx := hC2.2
          rw [hin] at hx
          simpa [truthy] using hx
        have hfe := hinput p0 path hC2.1 rfl hin hne
        have hD : env.fileExists (p0.input_file.getD "") = true := by
          rw [hin]; exact hfe
        rw [launchLoop_cons_inputOk env p0 (pre' ++ c :: rest) i st hC hD]
        rw [stageAfterStdin.eq_def]
        simp only [hl0]
        exact ih (i + 1) _ hpre' hnext
    · have hC' : (i = 0 && truthy p0.input_file) = false := by
        cases hb : (i = 0 && truthy p0.input_file)
        · rfl
        · exact absurd hb hC
      rw [launchLoop_cons_noInput env p0 (pre' ++ c :: rest) i st hC']
      rw [stageAfterStdin.eq_def]
      simp only [hl0]
      exact ih (i + 1) _ hpre' hnext

/-- C3 (amended): for every command or pipeline whose program cannot be
launched — with redirected input allowed, provided the input file itself
exists so that launching is reached, and with the failing stage at any
position after started stages — the exit code is 127 for a missing
program in both `execute_external` and `execute_pipeline`; a permission
failure yields 126 in `execute_external`, but in `execute_pipeline`,
which has no `PermissionError` handler, it falls through to the generic
handler and yields 1. -/
theorem c3_amended (env : Env) (p c : ParsedCmd) (pre rest : List ParsedCmd)
    (hp : truthy p.input_file = true →
      env.fileExists (p.input_file.getD "") = true)
    (hpre : ∀ c' ∈ pre, (env.launch c'.command).isStarted = true)
    (hin : ∀ c0 path, (pre ++ c :: rest).head? = some c0 →
      c0.input_file = some path → path ≠ "" → env.fileExists path = true) :
    (env.launch p.command = .notFound →
      (execute_external env p).exit = some 127) ∧
    (env.launch p.command = .permissionDenied →
      (execute_external env p).exit = some 126) ∧
    (env.launch c.command = .notFound →
      (execute_pipeline env (pre ++ c :: rest)).exit = 127) ∧
    (env.launch c.command = .permissionDenied →
      (execute_pipeline env (pre ++ c :: rest)).exit = 1) := by
  have hcond : (truthy p.input_file &&
      !env.fileExists (p.input_file.getD "")) = false := by
    cases ht : truthy p.input_file
    · simp
    · simp [hp ht]
  have herr := launchLoop_error_at env c rest pre 0 ⟨[], [], [], none⟩ hpre
    (fun c0 path _ h1 h2 h3 => hin c0 path h1 h2 h3)
  refine ⟨?_, ?_, ?_, ?_⟩
  · intro hl
    rw [execute_external, hcond, if_neg (by simp), hl]
  · intro hl
    rw [execute_external, hcond, if_neg (by simp), hl]
  · intro hl
    obtain ⟨st', hrun⟩ := herr.1 hl
    rw [execute_pipeline_def, hrun]
  · intro hl
    obtain ⟨st', hrun⟩ := herr.2 hl
    rw [execute_pipeline_def, hrun]

/-- C3 witness: the amended exit codes at concrete inputs — a not-found
command with redirected input from an existing file, a two-stage
pipeline whose second stage is missing, and a two-stage pipeline whose
second stage hits a permission error. -/
theorem c3_amended_witness :
    (execute_external ⟨fun _ => true, fun _ => .notFound⟩
      ⟨"sort", [], some "in.txt", none, false⟩).exit = some 127 ∧
    (execute_pipeline ⟨fun _ => true,
      fun s => if s = "A" then .started 0 "" else .notFound⟩
      [⟨"A", [], none, none, false⟩, ⟨"nf", [], none, none, false⟩]).exit =
      127 ∧
    (execute_pipeline ⟨fun _ => true,
      fun s => if s = "A" then .started 0 "" else .permissionDenied⟩
      [⟨"A", [], none, none, false⟩, ⟨"pd", [], none, none, false⟩]).exit =
      1 :=
  ⟨(c3_amended ⟨fun _ => true, fun _ => .notFound⟩
      ⟨"sort", [], some "in.txt", none, false⟩
      ⟨"x", [], none, none, false⟩ [] []
      (fun _ => rfl) (by decide)
      (by
        intro c0 path hc0 hif hne
        simp only [List.nil_append, List.head?_cons, Option.some.injEq] at hc0
        rw [← hc0] at hif)).1 rfl,
   (c3_amended ⟨fun _ => true,
      fun s => if s = "A" then .started 0 "" else .notFound⟩
      ⟨"x", [], none, none, false⟩ ⟨"nf", [], none, none, false⟩
      [⟨"A", [], none, none, false⟩] []
      (by intro ht; exact absurd ht (by decide)) (by decide)
      (by
        intro c0 path hc0 hif hne
        simp only [List.cons_append, List.head?_cons, Option.some.injEq] at hc0
        rw [← hc0] at hif)).2.2.1 (by decide),
   (c3_amended ⟨fun _ => true,
      fun s => if s = "A" then .started 0 "" else .permissionDenied⟩
      ⟨"x", [], none, none, false⟩ ⟨"pd", [], none, none, false⟩
      [⟨"A", [], none, none, false⟩] []
      (by intro ht; exact absurd ht (by decide)) (by decide)
      (by
        intro c0 path hc0 hif hne
        simp only [List.cons_append, List.head?_cons, Option.some.injEq] at hc0
        rw [← hc0] at hif)).2.2.2 (by decide)⟩

/-- C8 (counterexample): a pipeline whose first stage redirects input
from a missing file does fail immediately with no process started, but
the error is the generic "Command not found in pipeline" (exit 127) —
it is not an input-not-found error and does not mention the path. -/
theorem c8_counterexample :
    (execute_pipeline ⟨fun _ => false, fun _ => .started 0 ""⟩
      [⟨"cat", [], some "in.txt", none, false⟩]).exit = 127 ∧
    (execute_pipeline ⟨fun _ => false, fun _ => .started 0 ""⟩
      [⟨"cat", [], some "in.txt", none, false⟩]).started = [] ∧
    (execute_pipeline ⟨fun _ => false, fun _ => .started 0 ""⟩
      [⟨"cat", [], some "in.txt", none, false⟩]).errMsgs =
      ["Command not found in pipeline"] ∧
    (∀ m ∈ (execute_pipeline ⟨fun _ => false, fun _ => .started 0 ""⟩
      [⟨"cat", [], some "in.txt", none, false⟩]).errMsgs,
      containsRun "in.txt".toList m.toList = false) := by
  decide

/-- C8 (amended): for every pipeline whose first stage has a (non-empty)
input path naming a nonexistent file, execution fails immediately with
exit code 127 and the generic message "Command not found in pipeline"
(which does not identify the path), and no process is started for any
stage. -/
theorem c8_amended (env : Env) (c : ParsedCmd) (rest : List ParsedCmd)
    (path : String) (hin : c.input_file = some path) (hne : path ≠ "")
    (hmiss : env.fileExists path = false) :
    (execute_pipeline env (c :: rest)).exit = 127 ∧
    (execute_pipeline env (c :: rest)).started = [] ∧
    (execute_pipeline env (c :: rest)).errMsgs =
      ["Command not found in pipeline"] := by
  have hC : (0 = 0 && truthy c.input_file) = true := by
    simp [hin, truthy, hne]
  have hD : env.fileExists (c.input_file.getD "") = false := by
    rw [hin]; exact hmiss
  rw [execute_pipeline_def,
    launchLoop_cons_inputMissing env c rest 0 _ hC hD]
  exact ⟨rfl, rfl, rfl⟩

/-- C8 witness: the amended behaviour at a concrete one-stage pipeline
reading from a missing file. -/
theorem c8_amended_witness :
    (execute_pipeline ⟨fun _ => false, fun _ => .started 0 ""⟩
      [⟨"wc", [], some "data.txt", none, false⟩]).exit = 127 :=
  (c8_amended ⟨fun _ => false, fun _ => .started 0 ""⟩
    ⟨"wc", [], some "data.txt", none, false⟩ [] "data.txt" rfl
    (by decide) rfl).1

/-- C9: a single command with a (non-empty) input path naming a
nonexistent file makes `execute_external` report "Input file not found"
and return Python `None` — no exit status at all — while on every other
path (input available) `execute_external` returns a numeric exit code. -/
theorem c9 (env : Env) (p q : ParsedCmd) (path : String)
    (hin : p.input_file = some path) (hne : path ≠ "")
    (hmiss : env.fileExists path = false)
    (hq : truthy q.input_file = true →
      env.fileExists (q.input_file.getD "") = true) :
    (execute_external env p).exit = none ∧
    (execute_external env p).errMsgs = ["Input file not found: " ++ path] ∧
    (execute_external env q).exit ≠ none := by
  have hcond : (truthy p.input_file &&
      !env.fileExists (p.input_file.getD "")) = true := by
    rw [hin]
    simp [truthy, hne, hmiss]
  refine ⟨?_, ?_, ?_⟩
  · rw [execute_external, if_pos hcond]
  · rw [execute_external, if_pos hcond, hin]
    rfl
  · have hcond2 : (truthy q.input_file &&
        !env.fileExists (q.input_file.getD "")) = false := by
      cases ht : truthy q.input_file
      · simp
      · simp [hq ht]
    rw [execute_external, hcond2, if_neg (by simp)]
    cases hl : env.launch q.command <;> simp

/-- C9 witness: the theorem at a concrete missing input file and a
concrete unredirected command. -/
theorem c9_witness :
    (execute_external ⟨fun _ => false, fun _ => .started 0 ""⟩
      ⟨"sort", [], some "nums.txt", none, false⟩).exit = none ∧
    (execute_external ⟨fun _ => false, fun _ => .started 0 ""⟩
      ⟨"date", [], none, none, false⟩).exit ≠ none :=
  ⟨(c9 ⟨fun _ => false, fun _ => .started 0 ""⟩
      ⟨"sort", [], some "nums.txt", none, false⟩
      ⟨"date", [], none, none, false⟩ "nums.txt" rfl (by decide) rfl
      (by intro ht; exact absurd ht (by decide))).1,
   (c9 ⟨fun _ => false, fun _ => .started 0 ""⟩
      ⟨"sort", [], some "nums.txt", none, false⟩
      ⟨"date", [], none, none, false⟩ "nums.txt" rfl (by decide) rfl
      (by intro ht; exact absurd ht (by decide))).2.2⟩

end Neoshell
